import Mathlib

/-
Verification of the Enumly derive transformation (src/lib.rs).

The embedding models the single pass of `derive_enumly`:
a parsed `DeriveInput` is validated (type-level non_exhaustive check,
target-kind check, then a per-variant loop interleaving the variant-level
non_exhaustive check with the unit-shape check) and, on success, expanded
into the token stream produced by the quote! block of lib.rs lines 82-87.
Spans are modelled as natural numbers; token streams as lists of strings.
-/

set_option autoImplicit false

namespace Enumly

/-- Shape of the field list of one enum variant, mirroring the three
constructors of syn Fields (Unit, Named, Unnamed) that lib.rs line 62
matches on. -/
inductive Fields where
  | unit
  | named
  | unnamed
deriving DecidableEq, Repr

/-- One attached attribute, keeping only what lib.rs reads from a syn
Attribute: its path (lib.rs line 95 compares it with the single identifier
non_exhaustive) and its span (lib.rs line 98). -/
structure Attribute where
  path : String
  span : Nat
deriving DecidableEq, Repr

/-- One enum variant, keeping the fields of a syn Variant that
lib.rs reads: the identifier, the span of that identifier
(variant.ident.span(), lib.rs line 66), the attached attributes and the
field list. -/
structure Variant where
  ident : String
  ident_span : Nat
  attrs : List Attribute
  fields : Fields
deriving DecidableEq, Repr

/-- The three token pieces returned by generics.split_for_impl()
(lib.rs line 80): impl generics, type generics and the where clause,
each modelled as the token list it prints to (empty when absent). -/
structure Generics where
  impl_generics : List String
  ty_generics : List String
  where_clause : List String
deriving DecidableEq, Repr

/-- The body of a syn DeriveInput, mirroring the Data constructors
matched at lib.rs lines 46-53: an enum with its variant list, or a
struct, or a union. -/
inductive Data where
  | enumData (variants : List Variant)
  | structData
  | unionData
deriving DecidableEq, Repr

/-- The parsed macro input (syn DeriveInput) restricted to the fields
lib.rs reads: identifier, the span of the identifier (input.ident.span(),
lib.rs line 49), outer attributes, generics and the data body. -/
structure DeriveInput where
  ident : String
  ident_span : Nat
  attrs : List Attribute
  generics : Generics
  data : Data
deriving DecidableEq, Repr

/-- A syn Error, as built by syn.Error.new(span, message): the span it
points at and its message. -/
structure SynError where
  span : Nat
  message : String
deriving DecidableEq, Repr

/-- The two forms a derive invocation returns: the generated token
stream, or a single error rendered through to_compile_error. Every
return site of derive_enumly produces exactly one of the two. -/
inductive MacroOutput where
  | fragment (tokens : List String)
  | diagnostic (err : SynError)
deriving DecidableEq, Repr

/-- Message of the error built at lib.rs line 99. -/
def openExtensionMsg : String :=
  "Enumly does not support #[non_exhaustive] enums or variants"

/-- Message of the error built at lib.rs line 49. -/
def invalidTargetMsg : String :=
  "Enumly can only be derived for enums"

/-- Message of the error built at lib.rs line 67. -/
def nonUnitVariantMsg : String :=
  "Enumly only supports unit variants; tuple and struct variants are not allowed"

/-- lib.rs lines 92-102: scan an attribute list for the first attribute
whose path is the identifier non_exhaustive and turn it into an error at
that attribute span. -/
def non_exhaustive_error (attrs : List Attribute) : Option SynError :=
  (attrs.find? (fun attr => attr.path == "non_exhaustive")).map
    (fun attr => ⟨attr.span, openExtensionMsg⟩)

/-- The loop of lib.rs lines 57-73: walk the variants in declaration
order; for each variant first check its attributes for non_exhaustive,
then check that its field list is Unit, collecting the identifiers of
the unit variants; the first violation aborts the whole loop with its
error. -/
def process_variants : List Variant → Except SynError (List String)
  | [] => .ok []
  | v :: rest =>
    match non_exhaustive_error v.attrs with
    | some err => .error err
    | none =>
      match v.fields with
      | .unit =>
        match process_variants rest with
        | .error err => .error err
        | .ok idents => .ok (v.ident :: idents)
      | _ => .error ⟨v.ident_span, nonUnitVariantMsg⟩

/-- One variant entry of the generated VARIANTS array: the tokens of
the expression Self::ident (lib.rs line 79). -/
def variant_expr (ident : String) : List String :=
  ["Self", "::", ident]

/-- Comma interposition of the repetition #(#variant_exprs),* inside
the quote! block (lib.rs line 85). -/
def comma_separated : List (List String) → List String
  | [] => []
  | [ts] => ts
  | ts :: rest => ts ++ [","] ++ comma_separated rest

/-- The token stream built by the quote! block at lib.rs lines 82-87:
an impl block headed by the input generics pieces around the type name,
containing the COUNT constant and the VARIANTS constant. -/
def expanded (name : String) (generics : Generics) (count : Nat)
    (variant_idents : List String) : List String :=
  ["impl"] ++ generics.impl_generics ++ [name] ++ generics.ty_generics
    ++ generics.where_clause
    ++ ["\x7b", "pub", "const", "COUNT", ":", "usize", "=", toString count, ";",
        "pub", "const", "VARIANTS", ":", "&", "\x27static", "[", "Self", "]",
        "=", "&", "["]
    ++ comma_separated (variant_idents.map variant_expr)
    ++ ["]", ";", "\x7d"]

/-- lib.rs lines 39-90, the whole derive body after parsing: check the
type-level attributes for non_exhaustive, then require an enum body,
then run the variant loop, and finally emit the quote! expansion with
the collected identifiers and their count. -/
def derive_enumly (input : DeriveInput) : MacroOutput :=
  match non_exhaustive_error input.attrs with
  | some err => .diagnostic err
  | none =>
    match input.data with
    | .enumData variants =>
      match process_variants variants with
      | .error err => .diagnostic err
      | .ok variant_idents =>
        .fragment (expanded input.ident input.generics variant_idents.length
          variant_idents)
    | _ => .diagnostic ⟨input.ident_span, invalidTargetMsg⟩

/-- A variant is clean when the loop body accepts it and moves on:
its field list is Unit and none of its attributes is non_exhaustive. -/
def cleanVariant (v : Variant) : Prop :=
  v.fields = .unit ∧ non_exhaustive_error v.attrs = none

instance (v : Variant) : Decidable (cleanVariant v) := by
  unfold cleanVariant; infer_instance

/-- Example input: the Color enum of the lib.rs doc comment, three unit
variants and no attributes. -/
def colorInput : DeriveInput :=
  ⟨"Color", 0, [], ⟨[], [], []⟩,
    .enumData [⟨"Red", 1, [], .unit⟩, ⟨"Green", 2, [], .unit⟩,
      ⟨"Blue", 3, [], .unit⟩]⟩

/-- Example input: the Color enum with its variants declared in a
different order. -/
def colorPermInput : DeriveInput :=
  ⟨"Color", 0, [], ⟨[], [], []⟩,
    .enumData [⟨"Blue", 3, [], .unit⟩, ⟨"Red", 1, [], .unit⟩,
      ⟨"Green", 2, [], .unit⟩]⟩

/-- Example input: an enum with no variants at all. -/
def emptyInput : DeriveInput :=
  ⟨"Empty", 0, [], ⟨[], [], []⟩, .enumData []⟩

/-- Example input: the Bad enum of the lib.rs doc comment, a tuple
variant followed by a struct variant. -/
def badInput : DeriveInput :=
  ⟨"Bad", 0, [], ⟨[], [], []⟩,
    .enumData [⟨"Tuple", 1, [], .unnamed⟩, ⟨"Struct", 2, [], .named⟩]⟩

/-- Example input: a struct carrying the non_exhaustive attribute. -/
def markedStructInput : DeriveInput :=
  ⟨"NotEnum", 5, [⟨"non_exhaustive", 7⟩], ⟨[], [], []⟩, .structData⟩

/-- Example input: a struct with no attributes. -/
def plainStructInput : DeriveInput :=
  ⟨"NotEnum", 5, [], ⟨[], [], []⟩, .structData⟩

/-- Example input: an enum whose first variant is non-unit and
unmarked while its second variant carries the non_exhaustive
attribute. -/
def mixedInput : DeriveInput :=
  ⟨"Mixed", 0, [], ⟨[], [], []⟩,
    .enumData [⟨"First", 1, [], .unnamed⟩,
      ⟨"Second", 2, [⟨"non_exhaustive", 3⟩], .unit⟩]⟩

/-- Example input: an enum whose single variant is both non-unit and
marked non_exhaustive. -/
def markedVariantInput : DeriveInput :=
  ⟨"Open", 0, [], ⟨[], [], []⟩,
    .enumData [⟨"A", 1, [⟨"non_exhaustive", 9⟩], .unnamed⟩]⟩

/-- Example input: an enum marked non_exhaustive at type level. -/
def markedTypeInput : DeriveInput :=
  ⟨"Open2", 0, [⟨"non_exhaustive", 4⟩], ⟨[], [], []⟩,
    .enumData [⟨"A", 1, [], .unit⟩]⟩

/-- Example variant used inside the generic example input. -/
def genOnlyVariant : Variant := ⟨"Only", 1, [], .unit⟩

/-- Example input: a generic enum with one type parameter, a bound and
a where clause, one unit variant. -/
def genInput : DeriveInput :=
  ⟨"Wrapper", 0, [],
    ⟨["<", "T", ":", "Clone", ">"], ["<", "T", ">"],
      ["where", "T", ":", "Default"]⟩,
    .enumData [genOnlyVariant]⟩

theorem non_exhaustive_error_eq_none (attrs : List Attribute) :
    non_exhaustive_error attrs = none ↔
      ∀ a ∈ attrs, a.path ≠ "non_exhaustive" := by
  simp [non_exhaustive_error, List.find?_eq_none]

theorem non_exhaustive_error_isSome (attrs : List Attribute) :
    (non_exhaustive_error attrs).isSome ↔
      ∃ a ∈ attrs, a.path = "non_exhaustive" := by
  simp [non_exhaustive_error, List.find?_isSome]

theorem non_exhaustive_error_eq_some (attrs : List Attribute) (e : SynError)
    (h : non_exhaustive_error attrs = some e) :
    ∃ a, attrs.find? (fun a => a.path == "non_exhaustive") = some a ∧
      e = ⟨a.span, openExtensionMsg⟩ := by
  simp only [non_exhaustive_error, Option.map_eq_some'] at h
  obtain ⟨a, ha, he⟩ := h
  exact ⟨a, ha, he.symm⟩

theorem process_variants_ok (vs : List Variant)
    (h : ∀ v ∈ vs, cleanVariant v) :
    process_variants vs = .ok (vs.map Variant.ident) := by
  induction vs with
  | nil => rfl
  | cons v rest ih =>
    obtain ⟨hf, hm⟩ := h v (List.mem_cons_self _ _)
    have hrest := fun u hu => h u (List.mem_cons_of_mem _ hu)
    simp [process_variants, hf, hm, ih hrest]

theorem process_variants_marker (pre : List Variant) (v : Variant)
    (rest : List Variant) (a : SynError)
    (hpre : ∀ u ∈ pre, cleanVariant u)
    (hv : non_exhaustive_error v.attrs = some a) :
    process_variants (pre ++ v :: rest) = .error a := by
  induction pre with
  | nil => simp [process_variants, hv]
  | cons u pre ih =>
    obtain ⟨hf, hm⟩ := hpre u (List.mem_cons_self _ _)
    have hpre2 := fun w hw => hpre w (List.mem_cons_of_mem _ hw)
    simp [process_variants, hf, hm, ih hpre2]

theorem process_variants_shape (pre : List Variant) (v : Variant)
    (rest : List Variant)
    (hpre : ∀ u ∈ pre, cleanVariant u)
    (hm : non_exhaustive_error v.attrs = none)
    (hf : v.fields ≠ .unit) :
    process_variants (pre ++ v :: rest) =
      .error ⟨v.ident_span, nonUnitVariantMsg⟩ := by
  induction pre with
  | nil =>
    cases hfv : v.fields with
    | unit => exact absurd hfv hf
    | named => simp [process_variants, hm, hfv]
    | unnamed => simp [process_variants, hm, hfv]
  | cons u pre ih =>
    obtain ⟨huf, hum⟩ := hpre u (List.mem_cons_self _ _)
    have hpre2 := fun w hw => hpre w (List.mem_cons_of_mem _ hw)
    simp [process_variants, huf, hum, ih hpre2]

theorem derive_enumly_enum (input : DeriveInput) (vs : List Variant)
    (hdata : input.data = .enumData vs)
    (hattrs : non_exhaustive_error input.attrs = none) :
    derive_enumly input =
      match process_variants vs with
      | .error err => .diagnostic err
      | .ok variant_idents =>
        .fragment (expanded input.ident input.generics variant_idents.length
          variant_idents) := by
  simp [derive_enumly, hattrs, hdata]

theorem process_variants_error_inv (vs : List Variant) (e : SynError)
    (h : process_variants vs = .error e) :
    ∃ pre v rest, vs = pre ++ v :: rest ∧ (∀ u ∈ pre, cleanVariant u) ∧
      (non_exhaustive_error v.attrs = some e ∨
        (non_exhaustive_error v.attrs = none ∧ v.fields ≠ .unit ∧
          e = ⟨v.ident_span, nonUnitVariantMsg⟩)) := by
  induction vs with
  | nil => simp [process_variants] at h
  | cons v rest ih =>
    cases hm : non_exhaustive_error v.attrs with
    | some a =>
      have ha : a = e := by simpa [process_variants, hm] using h
      exact ⟨[], v, rest, rfl, by simp, Or.inl (ha ▸ hm)⟩
    | none =>
      cases hf : v.fields with
      | unit =>
        simp only [process_variants, hm, hf] at h
        cases hpr : process_variants rest with
        | error e2 =>
          rw [hpr] at h
          have he2 : e2 = e := by simpa using h
          obtain ⟨pre2, w, rest2, hsplit, hclean, hcase⟩ := ih (he2 ▸ hpr)
          refine ⟨v :: pre2, w, rest2, by rw [hsplit]; rfl, ?_, hcase⟩
          intro u hu
          rcases List.mem_cons.mp hu with hu | hu
          · exact hu ▸ ⟨hf, hm⟩
          · exact hclean u hu
        | ok idents => rw [hpr] at h; simp at h
      | named =>
        have he : e = ⟨v.ident_span, nonUnitVariantMsg⟩ := by
          simpa [process_variants, hm, hf, eq_comm] using h
        exact ⟨[], v, rest, rfl, by simp, Or.inr ⟨hm, by simp [hf], he⟩⟩
      | unnamed =>
        have he : e = ⟨v.ident_span, nonUnitVariantMsg⟩ := by
          simpa [process_variants, hm, hf, eq_comm] using h
        exact ⟨[], v, rest, rfl, by simp, Or.inr ⟨hm, by simp [hf], he⟩⟩

theorem messages_distinct :
    invalidTargetMsg ≠ openExtensionMsg ∧
    nonUnitVariantMsg ≠ openExtensionMsg ∧
    nonUnitVariantMsg ≠ invalidTargetMsg := by
  refine ⟨?_, ?_, ?_⟩ <;> decide

/-- Claim C1: for every input describing an enum with N variants, all
unit-shaped, and no non_exhaustive marker on the type or any variant,
the derive succeeds; the generated COUNT constant equals N and the
VARIANTS list has exactly N entries, one Self::ident reference per
variant, in declaration order, for every N, including N = 0. -/
theorem count_and_list_match_declaration (input : DeriveInput)
    (vs : List Variant)
    (hdata : input.data = .enumData vs)
    (hattrs : non_exhaustive_error input.attrs = none)
    (hvars : ∀ v ∈ vs, cleanVariant v) :
    derive_enumly input =
      .fragment (expanded input.ident input.generics vs.length
        (vs.map Variant.ident)) ∧
    (vs.map Variant.ident).length = vs.length := by
  refine ⟨?_, by simp⟩
  rw [derive_enumly_enum input vs hdata hattrs, process_variants_ok vs hvars]
  simp

theorem count_and_list_match_declaration_witness :
    derive_enumly colorInput =
      .fragment (expanded colorInput.ident colorInput.generics
        ([⟨"Red", 1, [], .unit⟩, ⟨"Green", 2, [], .unit⟩,
          ⟨"Blue", 3, [], .unit⟩] : List Variant).length
        (([⟨"Red", 1, [], .unit⟩, ⟨"Green", 2, [], .unit⟩,
          ⟨"Blue", 3, [], .unit⟩] : List Variant).map Variant.ident)) ∧
    (([⟨"Red", 1, [], .unit⟩, ⟨"Green", 2, [], .unit⟩,
      ⟨"Blue", 3, [], .unit⟩] : List Variant).map Variant.ident).length =
      ([⟨"Red", 1, [], .unit⟩, ⟨"Green", 2, [], .unit⟩,
        ⟨"Blue", 3, [], .unit⟩] : List Variant).length :=
  count_and_list_match_declaration colorInput _ rfl rfl (by decide)

/-- Claim C2: an enum with zero variants and no non_exhaustive marker
succeeds, producing no diagnostic; the generated COUNT constant is 0
and the VARIANTS list is empty. -/
theorem empty_enum_count_zero (input : DeriveInput)
    (hdata : input.data = .enumData [])
    (hattrs : non_exhaustive_error input.attrs = none) :
    derive_enumly input =
      .fragment (expanded input.ident input.generics 0 []) := by
  rw [derive_enumly_enum input [] hdata hattrs]
  rfl

theorem empty_enum_count_zero_witness :
    derive_enumly emptyInput =
      .fragment (expanded emptyInput.ident emptyInput.generics 0 []) :=
  empty_enum_count_zero emptyInput rfl rfl

/-- Claim C5: for an enum whose type attributes carry no
non_exhaustive marker, if the first non-unit variant in declaration
order is itself unmarked and every earlier variant is unit and
unmarked, the derive fails with the non-unit-variant diagnostic whose
span is that variant identifier span, pointing at the name of the
offending variant. -/
theorem first_non_unit_rejected (input : DeriveInput)
    (pre : List Variant) (v : Variant) (rest : List Variant)
    (hdata : input.data = .enumData (pre ++ v :: rest))
    (hattrs : non_exhaustive_error input.attrs = none)
    (hpre : ∀ u ∈ pre, cleanVariant u)
    (hm : non_exhaustive_error v.attrs = none)
    (hf : v.fields ≠ .unit) :
    derive_enumly input = .diagnostic ⟨v.ident_span, nonUnitVariantMsg⟩ := by
  rw [derive_enumly_enum input _ hdata hattrs,
    process_variants_shape pre v rest hpre hm hf]

theorem first_non_unit_rejected_witness :
    derive_enumly badInput =
      .diagnostic ⟨(⟨"Tuple", 1, [], .unnamed⟩ : Variant).ident_span,
        nonUnitVariantMsg⟩ :=
  first_non_unit_rejected badInput [] ⟨"Tuple", 1, [], .unnamed⟩
    [⟨"Struct", 2, [], .named⟩] rfl rfl (by simp) rfl (by decide)

/-- Claim C6: on every input the derive produces exactly one of a code
fragment or a single diagnostic, never both; the diagnostic slot holds
one SynError, so no aggregation of several errors is possible. -/
theorem output_exclusive (input : DeriveInput) :
    (∃ ts, derive_enumly input = .fragment ts ∧
      ∀ e, derive_enumly input ≠ .diagnostic e) ∨
    (∃ e, derive_enumly input = .diagnostic e ∧
      ∀ ts, derive_enumly input ≠ .fragment ts) := by
  cases h : derive_enumly input with
  | fragment ts =>
    exact Or.inl ⟨ts, rfl, fun e he => MacroOutput.noConfusion he⟩
  | diagnostic e =>
    exact Or.inr ⟨e, rfl, fun ts hts => MacroOutput.noConfusion hts⟩

/-- Claim C7: permuting the declared variant order of a valid enum
permutes the VARIANTS entries identically (each list is the
declaration-order map of its own variants), and the generated COUNT is
the same for both orders. -/
theorem permutation_preserves_order_and_count
    (input1 input2 : DeriveInput) (vs1 vs2 : List Variant)
    (hdata1 : input1.data = .enumData vs1)
    (hdata2 : input2.data = .enumData vs2)
    (hperm : vs1.Perm vs2)
    (hattrs1 : non_exhaustive_error input1.attrs = none)
    (hattrs2 : non_exhaustive_error input2.attrs = none)
    (hvars : ∀ v ∈ vs1, cleanVariant v) :
    derive_enumly input1 =
      .fragment (expanded input1.ident input1.generics vs1.length
        (vs1.map Variant.ident)) ∧
    derive_enumly input2 =
      .fragment (expanded input2.ident input2.generics vs1.length
        (vs2.map Variant.ident)) := by
  have hvars2 : ∀ v ∈ vs2, cleanVariant v :=
    fun v hv => hvars v (hperm.mem_iff.mpr hv)
  have hlen : vs2.length = vs1.length := hperm.length_eq.symm
  constructor
  · rw [derive_enumly_enum input1 vs1 hdata1 hattrs1,
      process_variants_ok vs1 hvars]
    simp
  · rw [derive_enumly_enum input2 vs2 hdata2 hattrs2,
      process_variants_ok vs2 hvars2]
    simp [hlen]

theorem permutation_preserves_order_and_count_witness :
    derive_enumly colorInput =
      .fragment (expanded colorInput.ident colorInput.generics
        ([⟨"Red", 1, [], .unit⟩, ⟨"Green", 2, [], .unit⟩,
          ⟨"Blue", 3, [], .unit⟩] : List Variant).length
        (([⟨"Red", 1, [], .unit⟩, ⟨"Green", 2, [], .unit⟩,
          ⟨"Blue", 3, [], .unit⟩] : List Variant).map Variant.ident)) ∧
    derive_enumly colorPermInput =
      .fragment (expanded colorPermInput.ident colorPermInput.generics
        ([⟨"Red", 1, [], .unit⟩, ⟨"Green", 2, [], .unit⟩,
          ⟨"Blue", 3, [], .unit⟩] : List Variant).length
        (([⟨"Blue", 3, [], .unit⟩, ⟨"Red", 1, [], .unit⟩,
          ⟨"Green", 2, [], .unit⟩] : List Variant).map Variant.ident)) :=
  permutation_preserves_order_and_count colorInput colorPermInput _ _
    rfl rfl (by decide) rfl rfl (by decide)

/-- Claim C8: the derive is a pure function of the parsed input: two
invocations on equal inputs return equal outputs, with no dependence
on outside state (the embedding of lib.rs lines 39-90 reads nothing
but the input). -/
theorem derive_deterministic (input1 input2 : DeriveInput)
    (h : input1 = input2) :
    derive_enumly input1 = derive_enumly input2 :=
  congrArg derive_enumly h

theorem derive_deterministic_witness :
    derive_enumly colorInput = derive_enumly colorInput :=
  derive_deterministic colorInput colorInput rfl

/-- Claim C9: for every validated enum the generated fragment is a
single impl block whose header is the impl-generics piece of the input
generics, then the type name, then the type-generics piece, then the
where clause — split_for_impl output placed around the name exactly as
in the quote! block — and whose body holds the COUNT and VARIANTS
constants, so both constants attach to the type under its own generic
signature. -/
theorem generics_scope_impl (input : DeriveInput) (vs : List Variant)
    (hdata : input.data = .enumData vs)
    (hattrs : non_exhaustive_error input.attrs = none)
    (hvars : ∀ v ∈ vs, cleanVariant v) :
    derive_enumly input =
      .fragment (["impl"] ++ input.generics.impl_generics ++ [input.ident]
        ++ input.generics.ty_generics ++ input.generics.where_clause
        ++ ["\x7b", "pub", "const", "COUNT", ":", "usize", "=",
            toString vs.length, ";",
            "pub", "const", "VARIANTS", ":", "&", "\x27static", "[", "Self",
            "]", "=", "&", "["]
        ++ comma_separated ((vs.map Variant.ident).map variant_expr)
        ++ ["]", ";", "\x7d"]) := by
  rw [derive_enumly_enum input vs hdata hattrs, process_variants_ok vs hvars]
  simp [expanded]

theorem generics_scope_impl_witness :
    derive_enumly genInput =
      .fragment (["impl"] ++ genInput.generics.impl_generics
        ++ [genInput.ident]
        ++ genInput.generics.ty_generics ++ genInput.generics.where_clause
        ++ ["\x7b", "pub", "const", "COUNT", ":", "usize", "=",
            toString ([genOnlyVariant] : List Variant).length, ";",
            "pub", "const", "VARIANTS", ":", "&", "\x27static", "[", "Self",
            "]", "=", "&", "["]
        ++ comma_separated ((([genOnlyVariant] : List Variant).map
            Variant.ident).map variant_expr)
        ++ ["]", ";", "\x7d"]) :=
  generics_scope_impl genInput [genOnlyVariant] rfl rfl (by decide)

/-- Claim C3 counterexample: a struct (non-enum) input that also
carries non_exhaustive is rejected with the open-extension diagnostic,
not with the invalid-target diagnostic, because lib.rs line 42 checks
the type attributes before line 46 inspects the data kind. -/
theorem invalid_target_counterexample :
    derive_enumly markedStructInput = .diagnostic ⟨7, openExtensionMsg⟩ ∧
    openExtensionMsg ≠ invalidTargetMsg := by
  exact ⟨rfl, by decide⟩

/-- Claim C3 amended: a non-enum input whose own attributes carry no
non_exhaustive marker fails with the invalid-target diagnostic at the
span of the type identifier; but a non-enum input marked
non_exhaustive fails with the open-extension diagnostic instead, since
the type-level open-extension check runs before the target-kind
check. -/
theorem invalid_target_after_marker (input : DeriveInput)
    (hne : ∀ vs, input.data ≠ .enumData vs) :
    (non_exhaustive_error input.attrs = none →
      derive_enumly input =
        .diagnostic ⟨input.ident_span, invalidTargetMsg⟩) ∧
    (∀ e, non_exhaustive_error input.attrs = some e →
      derive_enumly input = .diagnostic e ∧ e.message = openExtensionMsg) := by
  constructor
  · intro h
    cases hd : input.data with
    | enumData vs => exact absurd hd (hne vs)
    | structData => simp [derive_enumly, h, hd]
    | unionData => simp [derive_enumly, h, hd]
  · intro e he
    obtain ⟨a, _, hea⟩ := non_exhaustive_error_eq_some _ _ he
    exact ⟨by simp [derive_enumly, he], by rw [hea]⟩

theorem invalid_target_after_marker_witness :
    derive_enumly plainStructInput = .diagnostic ⟨5, invalidTargetMsg⟩ :=
  (invalid_target_after_marker plainStructInput
    (fun vs h => by simp [plainStructInput] at h)).1 rfl

/-- Claim C4 counterexample: in an enum whose first variant is
non-unit and unmarked and whose second variant is marked
non_exhaustive, the derive reports the non-unit diagnostic at the
first variant, not the open-extension diagnostic at the marked one:
the loop of lib.rs lines 57-73 checks marker and shape variant by
variant, not all markers before all shapes. -/
theorem marker_before_shape_counterexample :
    derive_enumly mixedInput = .diagnostic ⟨1, nonUnitVariantMsg⟩ ∧
    nonUnitVariantMsg ≠ openExtensionMsg := by
  exact ⟨rfl, by decide⟩

/-- Claim C4 amended: the open-extension check precedes the shape
check only for the same variant: if every variant before v is unit and
unmarked, and v itself carries a non_exhaustive attribute, the single
diagnostic is the open-extension error produced from the attributes of
v, whatever the shape of v; markers of variants after a non-unit
variant are never reached. -/
theorem open_marker_checked_per_variant (input : DeriveInput)
    (pre : List Variant) (v : Variant) (rest : List Variant) (a : SynError)
    (hdata : input.data = .enumData (pre ++ v :: rest))
    (hattrs : non_exhaustive_error input.attrs = none)
    (hpre : ∀ u ∈ pre, cleanVariant u)
    (hv : non_exhaustive_error v.attrs = some a) :
    derive_enumly input = .diagnostic a ∧ a.message = openExtensionMsg := by
  obtain ⟨b, _, hb⟩ := non_exhaustive_error_eq_some _ _ hv
  constructor
  · rw [derive_enumly_enum input _ hdata hattrs,
      process_variants_marker pre v rest a hpre hv]
  · rw [hb]

theorem open_marker_checked_per_variant_witness :
    derive_enumly markedVariantInput =
      .diagnostic ⟨9, openExtensionMsg⟩ ∧
    (⟨9, openExtensionMsg⟩ : SynError).message = openExtensionMsg :=
  open_marker_checked_per_variant markedVariantInput []
    ⟨"A", 1, [⟨"non_exhaustive", 9⟩], .unnamed⟩ [] ⟨9, openExtensionMsg⟩
    rfl rfl (by simp) rfl

/-- Claim C10 counterexample: an enum holding a variant attribute with
path exactly non_exhaustive (on its second variant) whose derive
nevertheless does not return the open-extension diagnostic, because
the first variant fails the shape check before the scan reaches the
marked variant; so having such an attribute somewhere on the type or
its variants is not sufficient for the open-extension rejection. -/
theorem open_extension_iff_counterexample :
    (∃ vs, mixedInput.data = .enumData vs ∧
      ∃ v ∈ vs, ∃ a ∈ v.attrs, a.path = "non_exhaustive") ∧
    derive_enumly mixedInput = .diagnostic ⟨1, nonUnitVariantMsg⟩ ∧
    ∀ e, derive_enumly mixedInput = .diagnostic e →
      e.message ≠ openExtensionMsg := by
  refine ⟨⟨_, rfl, by decide⟩, rfl, ?_⟩
  intro e he
  have hd : derive_enumly mixedInput =
      .diagnostic ⟨1, nonUnitVariantMsg⟩ := rfl
  rw [hd] at he
  cases he
  decide

/-- Claim C10 amended: the derive returns the open-extension
diagnostic iff a non_exhaustive attribute is reached by the sequential
scan: either some attribute of the type itself has path exactly
non_exhaustive, or the input is an enum and some variant carries such
an attribute while every earlier variant is unit-shaped and unmarked;
no other annotation ever triggers it, and whenever it fires, its span
is the span of the first non_exhaustive attribute of the attribute
list that triggered it. -/
theorem open_extension_trigger_iff (input : DeriveInput) :
    ((∃ e, derive_enumly input = .diagnostic e ∧
        e.message = openExtensionMsg) ↔
      ((∃ a ∈ input.attrs, a.path = "non_exhaustive") ∨
        (∃ pre v rest, input.data = .enumData (pre ++ v :: rest) ∧
          (∀ u ∈ pre, cleanVariant u) ∧
          ∃ a ∈ v.attrs, a.path = "non_exhaustive"))) ∧
    (∀ e, derive_enumly input = .diagnostic e →
      e.message = openExtensionMsg →
      ((∃ a, input.attrs.find? (fun a => a.path == "non_exhaustive") =
          some a ∧ e.span = a.span) ∨
        (∃ vs, input.data = .enumData vs ∧ ∃ v ∈ vs, ∃ a,
          v.attrs.find? (fun a => a.path == "non_exhaustive") = some a ∧
          e.span = a.span))) := by
  constructor
  · constructor
    · rintro ⟨e, hde, hmsg⟩
      cases ht : non_exhaustive_error input.attrs with
      | some f =>
        refine Or.inl ?_
        rw [← non_exhaustive_error_isSome]
        simp [ht]
      | none =>
        cases hd : input.data with
        | enumData vs =>
          rw [derive_enumly_enum input vs hd ht] at hde
          cases hpr : process_variants vs with
          | ok idents => rw [hpr] at hde; simp at hde
          | error e2 =>
            rw [hpr] at hde
            simp only [MacroOutput.diagnostic.injEq] at hde
            obtain ⟨pre, v, rest, hsplit, hclean, hcase⟩ :=
              process_variants_error_inv vs e2 hpr
            rcases hcase with hmark | ⟨_, _, hshape⟩
            · refine Or.inr ⟨pre, v, rest, by rw [hsplit], hclean, ?_⟩
              rw [← non_exhaustive_error_isSome]
              simp [hmark]
            · rw [← hde, hshape] at hmsg
              exact absurd hmsg messages_distinct.2.1
        | structData =>
          simp only [derive_enumly, ht, hd, MacroOutput.diagnostic.injEq]
            at hde
          rw [← hde] at hmsg
          exact absurd hmsg messages_distinct.1
        | unionData =>
          simp only [derive_enumly, ht, hd, MacroOutput.diagnostic.injEq]
            at hde
          rw [← hde] at hmsg
          exact absurd hmsg messages_distinct.1
    · rintro (hty | ⟨pre, v, rest, hd, hclean, hva⟩)
      · have : (non_exhaustive_error input.attrs).isSome :=
          (non_exhaustive_error_isSome input.attrs).mpr hty
        obtain ⟨e, he⟩ := Option.isSome_iff_exists.mp this
        obtain ⟨a, _, hea⟩ := non_exhaustive_error_eq_some _ _ he
        exact ⟨e, by simp [derive_enumly, he], by rw [hea]⟩
      · cases ht : non_exhaustive_error input.attrs with
        | some f =>
          obtain ⟨a, _, hfa⟩ := non_exhaustive_error_eq_some _ _ ht
          exact ⟨f, by simp [derive_enumly, ht], by rw [hfa]⟩
        | none =>
          have : (non_exhaustive_error v.attrs).isSome :=
            (non_exhaustive_error_isSome v.attrs).mpr hva
          obtain ⟨b, hb⟩ := Option.isSome_iff_exists.mp this
          obtain ⟨a, _, hba⟩ := non_exhaustive_error_eq_some _ _ hb
          refine ⟨b, ?_, by rw [hba]⟩
          rw [derive_enumly_enum input _ hd ht,
            process_variants_marker pre v rest b hclean hb]
  · intro e hde hmsg
    cases ht : non_exhaustive_error input.attrs with
    | some f =>
      have hef : e = f := by simpa [derive_enumly, ht] using hde.symm
      obtain ⟨a, hfind, hfa⟩ := non_exhaustive_error_eq_some _ _ ht
      exact Or.inl ⟨a, hfind, by rw [hef, hfa]⟩
    | none =>
      cases hd : input.data with
      | enumData vs =>
        rw [derive_enumly_enum input vs hd ht] at hde
        cases hpr : process_variants vs with
        | ok idents => rw [hpr] at hde; simp at hde
        | error e2 =>
          rw [hpr] at hde
          simp only [MacroOutput.diagnostic.injEq] at hde
          obtain ⟨pre, v, rest, hsplit, hclean, hcase⟩ :=
            process_variants_error_inv vs e2 hpr
          rcases hcase with hmark | ⟨_, _, hshape⟩
          · obtain ⟨a, hfind, hea⟩ := non_exhaustive_error_eq_some _ _ hmark
            refine Or.inr ⟨vs, rfl, v, ?_, a, hfind, ?_⟩
            · rw [hsplit]
              exact List.mem_append_right pre (List.mem_cons_self v rest)
            · rw [← hde, hea]
          · rw [← hde, hshape] at hmsg
            exact absurd hmsg messages_distinct.2.1
      | structData =>
        simp only [derive_enumly, ht, hd, MacroOutput.diagnostic.injEq] at hde
        rw [← hde] at hmsg
        exact absurd hmsg messages_distinct.1
      | unionData =>
        simp only [derive_enumly, ht, hd, MacroOutput.diagnostic.injEq] at hde
        rw [← hde] at hmsg
        exact absurd hmsg messages_distinct.1

theorem open_extension_trigger_iff_witness :
    ∃ e, derive_enumly markedTypeInput = .diagnostic e ∧
      e.message = openExtensionMsg :=
  (open_extension_trigger_iff markedTypeInput).1.mpr
    (Or.inl ⟨⟨"non_exhaustive", 4⟩, by decide, rfl⟩)

end Enumly
